import Mathlib

/-!
Shallow embedding of `src/pyteal/ast/router.py` (the PyTeal ABI router:
dispatch-tree compiler, argument marshaling, registration validation).

The expression/AST node library, the per-type ABI codec, and the hash
primitive are external collaborators of the router; they are embedded as
opaque constructors (`Expr`), opaque type tags (`TypeSpec`) and function
parameters (`hashF`, `Codec`).  Everything that `router.py` itself does is
translated line by line.
-/

set_option autoImplicit false

namespace PyTealRouter

/-- `CallConfig` from `router.py`: four-valued permission enumeration
`NEVER = 0, CALL = 1, CREATE = 2, ALL = 3`. -/
inductive CallConfig where
  | NEVER
  | CALL
  | CREATE
  | ALL
deriving DecidableEq, Repr, Fintype

/-- The six on-completion kinds (`OnComplete` enum of the external AST
library, consumed by the router). -/
inductive OC where
  | NoOp
  | OptIn
  | CloseOut
  | ClearState
  | UpdateApplication
  | DeleteApplication
deriving DecidableEq, Repr, Fintype

/-- ABI type specs as the router observes them: the router only inspects
whether a spec is a transaction type (`isinstance(ats, abi.Transaction)`)
and builds tuple specs (`abi.TupleTypeSpec(*grouped)`).  The canonical
type name `nm` is produced by the external ABI library and carried as
opaque data. -/
inductive TypeSpec where
  | base (nm : String)
  | txnT (nm : String)
  | tup (nm : String) (members : List TypeSpec)

/-- `isinstance(ats, abi.Transaction)`. -/
def TypeSpec.isTransaction : TypeSpec → Bool
  | .txnT _ => true
  | _ => false

/-- Identity of one argument-value instance created by
`typespec.new_instance()` in `wrap_handler`: either the instance for the
`i`-th declared parameter (`arg_vals[i]`), or the synthesized tuple
instance created when arguments overflow the slot budget. -/
inductive ArgRef where
  | orig (i : Nat)
  | packed
deriving DecidableEq, Repr

/-- Deep embedding of the external expression nodes `router.py`
constructs: `Int`, `Txn.*` accessors, `==`/`!=`/`-`, n-ary `And`/`Or`,
`Seq`, `Assert`, `Approve`, `Cond`, `MethodSignature`, on-completion enum
constants, and the typed-value operations `decode`, `Transaction.set`,
tuple-element `store_into`, subroutine invocation and the method-return
sequence. -/
inductive Expr where
  | intLit (n : Nat)
  | txnApplicationId
  | txnOnCompletion
  | txnGroupIndex
  | txnApplicationArg (i : Nat)
  | txnNumAppArgs
  | eqE (a b : Expr)
  | neE (a b : Expr)
  | subE (a b : Expr)
  | andE (xs : List Expr)
  | orE (xs : List Expr)
  | seqE (xs : List Expr)
  | assertE (e : Expr)
  | approve
  | condE (branches : List (Expr × Expr))
  | methodSignature (sig : String)
  | ocEnum (oc : OC)
  | decode (target : ArgRef) (spec : TypeSpec) (src : Expr)
  | txnSet (target : ArgRef) (idx : Expr)
  | storeTupleInto (src : ArgRef) (elem : Nat) (target : ArgRef)
  | handlerCall (hid : Nat) (args : List ArgRef)
  | storeCallIntoOutput (hid : Nat) (args : List ArgRef)
  | methodReturnOutput

/-- The two error classes of the router: `TealInputError` (user-facing)
and `TealInternalError` (internal-invariant failure). -/
inductive TealErr where
  | input (msg : String)
  | internal (msg : String)
deriving DecidableEq, Repr

/-- The `Expr | int` union used for guard values in `router.py`: the
constants `0` / `1`, or a runtime expression. -/
inductive CondVal where
  | c0
  | c1
  | expr (e : Expr)

/-- `CallConfig.condition_under_config` (router.py lines 50-61), on the
four closed enumerants.  The `case _` arm of the source is unreachable
for enumeration values; see `condition_under_config_raw` for raw integer
inputs. -/
def CallConfig.condition_under_config : CallConfig → CondVal
  | .NEVER => .c0
  | .CALL => .expr (.neE .txnApplicationId (.intLit 0))
  | .CREATE => .expr (.eqE .txnApplicationId (.intLit 0))
  | .ALL => .c1

/-- The integer value of each enumerant (`IntFlag`). -/
def CallConfig.flag : CallConfig → Nat
  | .NEVER => 0
  | .CALL => 1
  | .CREATE => 2
  | .ALL => 3

/-- Partial inverse of `CallConfig.flag`: which raw integers denote an
enumerant of the closed `IntFlag`. -/
def CallConfig.ofFlag (n : Nat) : Option CallConfig :=
  if n = 0 then some .NEVER
  else if n = 1 then some .CALL
  else if n = 2 then some .CREATE
  else if n = 3 then some .ALL
  else none

/-- `condition_under_config` seen over raw integer values: a value outside
the four enumerants falls into the `case _: raise TealInternalError` arm
of the source. -/
def condition_under_config_raw (n : Nat) : Except TealErr CondVal :=
  match CallConfig.ofFlag n with
  | some cc => .ok cc.condition_under_config
  | none => .error (.internal "unexpected CallConfig")

/-- The transaction-level facts the guard expressions read. -/
structure TxnState where
  applicationId : Nat
  groupIndex : Nat
  numAppArgs : Nat
deriving DecidableEq

/-- Evaluation of the numeric guard expressions over a transaction state
(the fragment of the external AVM semantics the claims need; `==` and
`!=` produce `1`/`0`, `-` fails on underflow as on the AVM). -/
def evalNum (st : TxnState) : Expr → Option Nat
  | .intLit n => some n
  | .txnApplicationId => some st.applicationId
  | .txnGroupIndex => some st.groupIndex
  | .txnNumAppArgs => some st.numAppArgs
  | .eqE a b =>
    match evalNum st a, evalNum st b with
    | some x, some y => some (if x = y then 1 else 0)
    | _, _ => none
  | .neE a b =>
    match evalNum st a, evalNum st b with
    | some x, some y => some (if x = y then 0 else 1)
    | _, _ => none
  | .subE a b =>
    match evalNum st a, evalNum st b with
    | some x, some y => if y ≤ x then some (x - y) else none
    | _, _ => none
  | _ => none

/-- `MethodConfig` (router.py lines 67-130): one `CallConfig` per
on-completion kind, defaulting to `NoOp: CALL`, all others `NEVER`. -/
structure MethodConfig where
  no_op : CallConfig := .CALL
  opt_in : CallConfig := .NEVER
  close_out : CallConfig := .NEVER
  clear_state : CallConfig := .NEVER
  update_application : CallConfig := .NEVER
  delete_application : CallConfig := .NEVER
deriving DecidableEq

/-- `MethodConfig.is_never`: all six fields are `NEVER`. -/
def MethodConfig.is_never (mc : MethodConfig) : Bool :=
  mc.no_op = CallConfig.NEVER ∧ mc.opt_in = CallConfig.NEVER ∧
    mc.close_out = CallConfig.NEVER ∧ mc.clear_state = CallConfig.NEVER ∧
    mc.update_application = CallConfig.NEVER ∧ mc.delete_application = CallConfig.NEVER

/-- `MethodConfig.arc4_compliant`: every kind `ALL`. -/
def MethodConfig.arc4_compliant : MethodConfig :=
  { no_op := .ALL, opt_in := .ALL, close_out := .ALL, clear_state := .ALL,
    update_application := .ALL, delete_application := .ALL }

/-- `MethodConfig.is_arc4_compliant`. -/
def MethodConfig.is_arc4_compliant (mc : MethodConfig) : Bool :=
  mc = MethodConfig.arc4_compliant

/-- The `config_oc_pairs` list of `approval_cond` (router.py lines
101-107): the five approval-relevant kinds, `ClearState` excluded. -/
def MethodConfig.config_oc_pairs (mc : MethodConfig) : List (CallConfig × OC) :=
  [(mc.no_op, .NoOp), (mc.opt_in, .OptIn), (mc.close_out, .CloseOut),
    (mc.update_application, .UpdateApplication), (mc.delete_application, .DeleteApplication)]

/-- `MethodConfig.approval_cond` (router.py lines 100-127), translated
clause by clause: all-`NEVER` gives the constant `0`, all-`ALL` gives the
constant `1`, otherwise a disjunction is accumulated in source order by
the `for` loop. -/
def MethodConfig.approval_cond (mc : MethodConfig) : CondVal :=
  if mc.config_oc_pairs.all (fun p => p.1 = CallConfig.NEVER) then .c0
  else if mc.config_oc_pairs.all (fun p => p.1 = CallConfig.ALL) then .c1
  else
    let cond_list : List Expr := mc.config_oc_pairs.foldl
      (fun acc p =>
        match p.1.condition_under_config with
        | .expr e => acc ++ [Expr.andE [Expr.eqE .txnOnCompletion (.ocEnum p.2), e]]
        | .c1 => acc ++ [Expr.eqE .txnOnCompletion (.ocEnum p.2)]
        | .c0 => acc)
      []
    .expr (.orE cond_list)

/-- `MethodConfig.clear_state_cond` (router.py lines 129-130). -/
def MethodConfig.clear_state_cond (mc : MethodConfig) : CondVal :=
  mc.clear_state.condition_under_config

/-- Specification-side rendering of `approval_cond`, following the words
of the spec (section 4.2) for the refinement comparison of claim C5:
iterate the five approval-relevant kinds; all `Never` gives
constant-false; all `All` gives constant-true; otherwise the disjunction
over kinds whose config is not `Never` of `(on_completion == kind) AND
condition_under_config(kind)`, a constant-true condition reduced to the
equality test alone and a constant-false kind omitted entirely. -/
def approval_cond_spec (mc : MethodConfig) : CondVal :=
  if mc.config_oc_pairs.all (fun p => p.1 = CallConfig.NEVER) then .c0
  else if mc.config_oc_pairs.all (fun p => p.1 = CallConfig.ALL) then .c1
  else
    .expr (.orE (mc.config_oc_pairs.filterMap
      (fun p =>
        match p.1.condition_under_config with
        | .c0 => none
        | .c1 => some (Expr.eqE .txnOnCompletion (.ocEnum p.2))
        | .expr e => some (Expr.andE [Expr.eqE .txnOnCompletion (.ocEnum p.2), e]))))

/-- Modelled from the spec: the direct-argument cutoff
`METHOD_ARG_NUM_CUTOFF` is imported by `router.py` from the external
configuration module `pyteal.config` (not under `src/`).  Per the spec
(sections 4.4 and 9) it is one less than the maximum call-argument slot
count (16), i.e. 15, matching the source docstring ("if the ABI method
has more than 15 args, ... de-tuple the last (16-th) Txn app-arg"). -/
def METHOD_ARG_NUM_CUTOFF : Nat := 15

/-- `enumerate`/`range`-style indexing used by the marshaling loops:
`enumFrom i [a, b, ...] = [(i, a), (i+1, b), ...]`. -/
def enumFrom {α : Type} (i : Nat) : List α → List (Nat × α)
  | [] => []
  | a :: as => (i, a) :: enumFrom (i + 1) as

/-- The introspectable metadata of an `ABIReturnSubroutine` that
`wrap_handler` consumes: an identity for the underlying subroutine, its
name, `expected_arg_types` (all declared parameters, transaction-typed
ones included, in declared order), the declared output type (`none` for
a void method, mirroring `type_of() == "void"`), and the
`is_abi_routable()` flag computed by the external subroutine layer. -/
structure ABIHandler where
  hid : Nat
  name : String
  argSpecs : List TypeSpec
  returns : Option TypeSpec
  routable : Bool := true

/-- The handler union accepted by `wrap_handler`:
`Expr | SubroutineFnWrapper | ABIReturnSubroutine`.  For the first two,
only the facts the router checks are carried: whether `type_of()` is
`TealType.none`, whether the expression `has_return()`, and the
subroutine's argument count. -/
inductive Handler where
  | exprH (e : Expr) (tyNone : Bool) (hasRet : Bool)
  | subH (hid : Nat) (tyNone : Bool) (argCount : Nat)
  | abiH (h : ABIHandler)

/-- The canonical name of a type spec, as produced by the external ABI
library. -/
def TypeSpec.key : TypeSpec → String
  | .base nm => nm
  | .txnT nm => nm
  | .tup nm _ => nm

/-- Modelled from the spec: `ABIReturnSubroutine.method_signature` lives
in `pyteal/ast/subroutine.py` (not under `src/`).  Per the spec (section
6) the canonical signature string is `name(type,type,...)returntype`,
with `void` for no return, the name replaceable by an overriding name. -/
def ABIHandler.method_signature (h : ABIHandler) (overriding_name : Option String) : String :=
  (match overriding_name with | some n => n | none => h.name)
    ++ "(" ++ String.intercalate "," (h.argSpecs.map TypeSpec.key) ++ ")"
    ++ (match h.returns with | some t => t.key | none => "void")

/-- `arg_vals` (router.py line 364): one fresh typed instance per
declared parameter, in declared order, tagged with its identity. -/
def arg_vals (h : ABIHandler) : List (ArgRef × TypeSpec) :=
  (enumFrom 0 h.argSpecs).map (fun p => (ArgRef.orig p.1, p.2))

/-- `app_arg_vals` (router.py lines 367-369): the non-transaction
("direct") argument instances, in declared order. -/
def app_arg_vals (h : ABIHandler) : List (ArgRef × TypeSpec) :=
  (arg_vals h).filter (fun p => !p.2.isTransaction)

/-- `tuplify` (router.py line 370). -/
def tuplify (h : ABIHandler) : Bool :=
  decide ((app_arg_vals h).length > METHOD_ARG_NUM_CUTOFF)

/-- `txn_arg_vals` (router.py lines 373-375): the transaction-typed
argument instances, in declared order. -/
def txn_arg_vals (h : ABIHandler) : List (ArgRef × TypeSpec) :=
  (arg_vals h).filter (fun p => p.2.isTransaction)

/-- `last_arg_specs_grouped` (router.py lines 379-381): the specs of the
direct arguments packed into the synthesized tuple. -/
def last_arg_specs_grouped (h : ABIHandler) : List TypeSpec :=
  ((app_arg_vals h).drop (METHOD_ARG_NUM_CUTOFF - 1)).map (fun p => p.2)

/-- `app_arg_vals` after the tuplify re-assignment (router.py lines
378-386): on overflow, the first `METHOD_ARG_NUM_CUTOFF - 1` direct
instances followed by the synthesized tuple instance (the canonical name
of the synthesized `TupleTypeSpec` is derived by the external library and
is irrelevant here, recorded as the empty string). -/
def app_arg_vals_final (h : ABIHandler) : List (ArgRef × TypeSpec) :=
  if tuplify h then
    (app_arg_vals h).take (METHOD_ARG_NUM_CUTOFF - 1)
      ++ [(ArgRef.packed, TypeSpec.tup "" (last_arg_specs_grouped h))]
  else
    app_arg_vals h

/-- `decode_instructions` (router.py lines 389-392) before the `+=`
extensions: `app_arg_vals[i].decode(Txn.application_args[i + 1])`. -/
def decode_instructions (h : ABIHandler) : List Expr :=
  (enumFrom 0 (app_arg_vals_final h)).map
    (fun p => Expr.decode p.2.1 p.2.2 (.txnApplicationArg (p.1 + 1)))

/-- `txn_decode_instructions` (router.py lines 394-405):
`txn_arg_vals[i].set(Txn.group_index() - Int(txn_relative_pos - i))`
with `txn_relative_pos = len(txn_arg_vals)`. -/
def txn_decode_instructions (h : ABIHandler) : List Expr :=
  (enumFrom 0 (txn_arg_vals h)).map
    (fun p => Expr.txnSet p.2.1
      (.subE .txnGroupIndex (.intLit ((txn_arg_vals h).length - p.1))))

/-- `de_tuple_instructions` (router.py lines 407-416):
`last_tuple_arg[i].store_into(tuple_abi_args[i])` where — as written in
the source — `tuple_abi_args = arg_vals[METHOD_ARG_NUM_CUTOFF - 1:]`
slices ALL argument instances, transaction-typed ones included. -/
def de_tuple_instructions (h : ABIHandler) : List Expr :=
  if tuplify h then
    (enumFrom 0 ((arg_vals h).drop (METHOD_ARG_NUM_CUTOFF - 1))).map
      (fun p => Expr.storeTupleInto ArgRef.packed p.1 p.2.1)
  else
    []

/-- The full decode-instruction list of method-mode `wrap_handler` after
both `+=` extensions (router.py lines 389-416). -/
def all_decode_instructions (h : ABIHandler) : List Expr :=
  decode_instructions h
    ++ (if (txn_arg_vals h).length > 0 then txn_decode_instructions h else [])
    ++ de_tuple_instructions h

/-- `ASTBuilder.wrap_handler` (router.py lines 288-437), both modes. -/
def wrap_handler (is_method_call : Bool) (handler : Handler) : Except TealErr Expr :=
  if !is_method_call then
    match handler with
    | .exprH e tyNone hasRet =>
      if !tyNone then
        .error (.input "bare appcall handler should be TealType.none")
      else if hasRet then .ok e
      else .ok (.seqE [e, .approve])
    | .subH hid tyNone argCount =>
      if !tyNone then
        .error (.input "subroutine call should be returning TealType.none")
      else if argCount ≠ 0 then
        .error (.input "subroutine call should take 0 arg for bare-app call")
      else .ok (.seqE [.handlerCall hid [], .approve])
    | .abiH h =>
      if h.returns.isSome then
        .error (.input "abi-returning subroutine call should be returning void")
      else if h.argSpecs.length ≠ 0 then
        .error (.input "abi-returning subroutine call should take 0 arg for bare-app call")
      else .ok (.seqE [.handlerCall h.hid [], .approve])
  else
    match handler with
    | .abiH h =>
      if !h.routable then
        .error (.input "method call ABIReturnSubroutine is not routable")
      else if h.returns.isNone then
        .ok (.seqE (all_decode_instructions h
          ++ [.handlerCall h.hid ((arg_vals h).map (fun p => p.1)), .approve]))
      else
        .ok (.seqE (all_decode_instructions h
          ++ [.storeCallIntoOutput h.hid ((arg_vals h).map (fun p => p.1)),
              .methodReturnOutput, .approve]))
    | _ => .error (.input "method call should be only registering ABIReturnSubroutine")

/-- `OnCompleteAction` (router.py lines 133-173): one optional bare-call
handler plus one `CallConfig`. -/
structure OnCompleteAction where
  action : Option Handler := none
  call_config : CallConfig := .NEVER

/-- `OnCompleteAction.__post_init__` (router.py lines 144-148): the
checked constructor; `bool(call_config) ^ bool(action)` raises. -/
def OnCompleteAction.make (action : Option Handler) (call_config : CallConfig) :
    Except TealErr OnCompleteAction :=
  if (call_config ≠ CallConfig.NEVER : Bool) ≠ action.isSome then
    .error (.input "action and call_config contradicts")
  else
    .ok { action := action, call_config := call_config }

/-- `OnCompleteAction.never()`. -/
def OnCompleteAction.never : OnCompleteAction := {}

/-- `OnCompleteAction.is_empty` (router.py lines 172-173). -/
def OnCompleteAction.is_empty (oca : OnCompleteAction) : Bool :=
  oca.action.isNone && oca.call_config = CallConfig.NEVER

/-- `BareCallActions` (router.py lines 179-203): one `OnCompleteAction`
per on-completion kind. -/
structure BareCallActions where
  close_out : OnCompleteAction := .never
  clear_state : OnCompleteAction := .never
  delete_application : OnCompleteAction := .never
  no_op : OnCompleteAction := .never
  opt_in : OnCompleteAction := .never
  update_application : OnCompleteAction := .never

/-- `BareCallActions.is_empty` (router.py lines 198-203). -/
def BareCallActions.is_empty (bc : BareCallActions) : Bool :=
  bc.close_out.is_empty && bc.clear_state.is_empty && bc.delete_application.is_empty
    && bc.no_op.is_empty && bc.opt_in.is_empty && bc.update_application.is_empty

/-- The body built for one non-empty bare-call action (router.py lines
219-240 and 247-269): wrap the handler in bare mode, then guard it by the
action's own `CallConfig` condition — `ALL` unconditional, `CALL`/`CREATE`
asserted, anything else an internal-invariant failure (reached when the
dataclass invariant was bypassed). -/
def ocaBody (oca : OnCompleteAction) : Except TealErr Expr := do
  let wrapped ← match oca.action with
    | some a => wrap_handler false a
    | none => .error (.input "bare appcall can only accept: none type Expr, or Subroutine/ABIReturnSubroutine with none return and no arg")
  match oca.call_config with
  | .ALL => .ok wrapped
  | .CALL => .ok (.seqE [.assertE (.neE .txnApplicationId (.intLit 0)), wrapped])
  | .CREATE => .ok (.seqE [.assertE (.eqE .txnApplicationId (.intLit 0)), wrapped])
  | .NEVER => .error (.internal "Unexpected CallConfig")

/-- The `oc_action_pair` list of `approval_construction` (router.py lines
206-212): the five approval-relevant kinds. -/
def BareCallActions.oc_action_pair (bc : BareCallActions) : List (OC × OnCompleteAction) :=
  [(.NoOp, bc.no_op), (.OptIn, bc.opt_in), (.CloseOut, bc.close_out),
    (.UpdateApplication, bc.update_application), (.DeleteApplication, bc.delete_application)]

/-- `BareCallActions.approval_construction` (router.py lines 205-241). -/
def BareCallActions.approval_construction (bc : BareCallActions) :
    Except TealErr (Option Expr) :=
  if bc.oc_action_pair.all (fun p => p.2.is_empty) then .ok none
  else do
    let nodes ← (bc.oc_action_pair.filter (fun p => !p.2.is_empty)).mapM
      (fun p => do
        let body ← ocaBody p.2
        pure (Expr.eqE .txnOnCompletion (.ocEnum p.1), body))
    .ok (some (.condE nodes))

/-- `BareCallActions.clear_state_construction` (router.py lines 243-269):
the single wrapped ClearState action, no disjunction. -/
def BareCallActions.clear_state_construction (bc : BareCallActions) :
    Except TealErr (Option Expr) :=
  if bc.clear_state.is_empty then .ok none
  else do
    let body ← ocaBody bc.clear_state
    .ok (some body)

/-- `CondNode` (router.py lines 275-281). -/
structure CondNode where
  condition : Expr
  branch : Expr

/-- `ASTBuilder` (router.py lines 284-286): the accumulated (guard,
branch) entries of one dispatch tree, in append order. -/
structure ASTBuilder where
  conditions_n_branches : List CondNode := []

/-- `ASTBuilder.add_method_to_ast` (router.py lines 439-458).  Mutation
is explicit: the returned pair is the builder after the call and the
exception raised, if any (a raise inside `wrap_handler` leaves the
builder untouched, as in the source where the raise happens before the
append). -/
def ASTBuilder.add_method_to_ast (b : ASTBuilder) (method_signature : String)
    (cond : CondVal) (handler : Handler) : ASTBuilder × Option TealErr :=
  let walk_in_cond := Expr.eqE (.txnApplicationArg 0) (.methodSignature method_signature)
  match cond with
  | .expr c =>
    match wrap_handler true handler with
    | .ok w =>
      ({ conditions_n_branches :=
          b.conditions_n_branches ++ [⟨walk_in_cond, .seqE [.assertE c, w]⟩] }, none)
    | .error e => (b, some e)
  | .c1 =>
    match wrap_handler true handler with
    | .ok w =>
      ({ conditions_n_branches := b.conditions_n_branches ++ [⟨walk_in_cond, w⟩] }, none)
    | .error e => (b, some e)
  | .c0 => (b, none)

/-- `ASTBuilder.program_construction` (router.py lines 460-463). -/
def ASTBuilder.program_construction (b : ASTBuilder) : Except TealErr Expr :=
  if b.conditions_n_branches.isEmpty then
    .error (.input "ABIRouter: Cannot build program with an empty AST")
  else
    .ok (.condE (b.conditions_n_branches.map (fun n => (n.condition, n.branch))))

/-- The mutable state of a `Router` (router.py lines 478-512): the two
dispatch-tree builders and the bidirectional signature-selector registry
(association lists preserve the insertion order of the Python dicts). -/
structure RouterState where
  name : String
  approval_ast : ASTBuilder := {}
  clear_state_ast : ASTBuilder := {}
  method_sig_to_selector : List (String × List Nat) := []
  method_selector_to_sig : List (List Nat × String) := []

/-- Dict key-membership test (`k in d`). -/
def hasKey {α β : Type} [DecidableEq α] (l : List (α × β)) (k : α) : Bool :=
  l.any (fun p => p.1 = k)

/-- `Router.__init__` (router.py lines 478-512).  The second component is
the exception raised during construction, if any (a raise inside the
bare-call wrapping propagates out of `__init__`, leaving the
partially-initialized object behind). -/
def Router.init (name : String) (bare_calls : Option BareCallActions) :
    RouterState × Option TealErr :=
  let base : RouterState := { name := name }
  match bare_calls with
  | none => (base, none)
  | some bc =>
    if bc.is_empty then (base, none)
    else
      match bc.approval_construction with
      | .error e => (base, some e)
      | .ok apc =>
        let st1 : RouterState :=
          match apc with
          | some e =>
            { base with approval_ast :=
                { conditions_n_branches := [⟨.eqE .txnNumAppArgs (.intLit 0), e⟩] } }
          | none => base
        match bc.clear_state_construction with
        | .error e => (st1, some e)
        | .ok none => (st1, none)
        | .ok (some e) =>
          ({ st1 with clear_state_ast :=
              { conditions_n_branches := [⟨.eqE .txnNumAppArgs (.intLit 0), e⟩] } }, none)

/-- The tail of `add_method_handler` after the registry insertion
(router.py lines 541-553): feed the method into the approval tree, then —
only if that raised nothing — into the clear-state tree. -/
def addToTrees (st : RouterState) (method_signature : String)
    (approval_cond clear_cond : CondVal) (handler : Handler) :
    RouterState × Option TealErr :=
  match st.approval_ast.add_method_to_ast method_signature approval_cond handler with
  | (a', some e) => ({ st with approval_ast := a' }, some e)
  | (a', none) =>
    let pc := st.clear_state_ast.add_method_to_ast method_signature clear_cond handler
    ({ st with approval_ast := a', clear_state_ast := pc.1 }, pc.2)

/-- `Router.add_method_handler` (router.py lines 514-553), parameterized
by the external hash primitive `hashF` (`algosdk.encoding.checksum` over
the UTF-8 bytes of the signature); the selector is its 4-byte prefix
(`[:4]`).  The returned pair is the state after the call and the
exception raised, if any: all three registration rejections happen
before the registry insertion. -/
def Router.add_method_handler (hashF : String → List Nat) (st : RouterState)
    (method_call : Handler) (overriding_name : Option String)
    (method_config : MethodConfig) : RouterState × Option TealErr :=
  match method_call with
  | .abiH h =>
    let method_signature := h.method_signature overriding_name
    if method_config.is_never then
      (st, some (.input ("registered method " ++ method_signature ++ " is never executed")))
    else
      let method_selector := (hashF method_signature).take 4
      if hasKey st.method_sig_to_selector method_signature then
        (st, some (.input ("re-registering method " ++ method_signature ++ " detected")))
      else if hasKey st.method_selector_to_sig method_selector then
        (st, some (.input ("re-registering method " ++ method_signature
          ++ " has hash collision")))
      else
        let st' := { st with
          method_sig_to_selector :=
            st.method_sig_to_selector ++ [(method_signature, method_selector)],
          method_selector_to_sig :=
            st.method_selector_to_sig ++ [(method_selector, method_signature)] }
        if method_config.is_arc4_compliant then
          addToTrees st' method_signature .c1 .c1 method_call
        else
          addToTrees st' method_signature method_config.approval_cond
            method_config.clear_state_cond method_call
  | _ => (st, some (.input "for adding method handler, must be ABIReturnSubroutine"))

/-- The contract JSON object (`sdk_abi.Contract`): the name and the
registered signatures in registration order (router.py lines 596-611). -/
structure Contract where
  name : String
  methods : List String

/-- `Router.contract_construct` (router.py lines 596-611). -/
def Router.contract_construct (st : RouterState) : Contract :=
  { name := st.name, methods := st.method_sig_to_selector.map (fun p => p.1) }

/-- `Router.build_program` (router.py lines 613-627): approval tree
first, then clear-state tree, then the contract object; the first raise
propagates. -/
def Router.build_program (st : RouterState) : Except TealErr (Expr × Expr × Contract) := do
  let ap ← st.approval_ast.program_construction
  let csp ← st.clear_state_ast.program_construction
  pure (ap, csp, Router.contract_construct st)

/-- One registration call against a router, for reasoning about
registration sequences. -/
structure Registration where
  handler : Handler
  overriding_name : Option String := none
  method_config : MethodConfig := {}

/-- The state after one `add_method_handler` call (whether or not the
call raised — all mutations the call performed are kept, as in Python). -/
def regStep (hashF : String → List Nat) (st : RouterState) (r : Registration) :
    RouterState :=
  (Router.add_method_handler hashF st r.handler r.overriding_name r.method_config).1

/-- The abstract per-type ABI codec and group-transaction resolver, an
external collaborator: `dec ts bytes` is the typed value the codec
decodes from `bytes` at type `ts`, `tupleGet v i` projects element `i`
of a decoded tuple value, `txnAt j` is the transaction at absolute group
index `j`. -/
structure Codec (V : Type) where
  dec : TypeSpec → List Nat → V
  tupleGet : V → Nat → V
  txnAt : Nat → V

/-- An assignment of decoded values to argument instances. -/
def Env (V : Type) : Type := ArgRef → Option V

/-- Point update of an environment. -/
def updEnv {V : Type} (env : Env V) (r : ArgRef) (v : V) : Env V :=
  fun r' => if r' = r then some v else env r'

/-- Execution of one marshaling instruction against the wire
(`slots i` = the raw bytes of call-argument slot `i`): `decode` reads its
slot through the codec, `txnSet` resolves a group index (failing on
arithmetic underflow, as the AVM does), `store_into` projects a tuple
element out of an already-decoded value. -/
def execInstr {V : Type} (C : Codec V) (st : TxnState) (slots : Nat → List Nat)
    (env : Env V) : Expr → Option (Env V)
  | .decode t spec (.txnApplicationArg i) => some (updEnv env t (C.dec spec (slots i)))
  | .txnSet t e => (evalNum st e).map (fun n => updEnv env t (C.txnAt n))
  | .storeTupleInto src i t => (env src).map (fun v => updEnv env t (C.tupleGet v i))
  | _ => some env

/-- Execution of a marshaling instruction list, left to right. -/
def execInstrs {V : Type} (C : Codec V) (st : TxnState) (slots : Nat → List Nat) :
    List Expr → Env V → Option (Env V)
  | [], env => some env
  | i :: is, env => (execInstr C st slots env i).bind (execInstrs C st slots is)

/-- Recognizer for wire-decode instructions (a `decode` of a
call-argument slot), as opposed to transaction resolution and tuple
destructuring. -/
def isWireDecode : Expr → Bool
  | .decode _ _ _ => true
  | _ => false

/-- A bare-call handler used by the concrete instances below: the plain
`Approve()` expression (`TealType.none`, terminates the program). -/
def bareApprove : Handler := .exprH .approve true true

/-- Bare-call actions carrying only a NoOp action (`Approve()` under
`CallConfig.ALL`). -/
def bc0 : BareCallActions :=
  { no_op := { action := some bareApprove, call_config := .ALL } }

/-- The router state after `Router("demo", bare_calls=bc0)`. -/
def router0 : RouterState := (Router.init "demo" (some bc0)).1

/-- Bare-call actions carrying a NoOp action and a ClearState action. -/
def bcW : BareCallActions :=
  { no_op := { action := some bareApprove, call_config := .ALL },
    clear_state := { action := some bareApprove, call_config := .ALL } }

/-- A method with 17 parameters: one transaction-typed parameter followed
by 16 direct ones — 16 direct arguments exceed the cutoff, so the
marshaler tuplifies, while one reference argument is present. -/
def hOverflowTxn : ABIHandler :=
  { hid := 0, name := "m",
    argSpecs := TypeSpec.txnT "txn" :: List.replicate 16 (TypeSpec.base "uint64"),
    returns := none }

/-- A small method with two direct arguments and one reference argument
between them. -/
def hMix : ABIHandler :=
  { hid := 1, name := "w",
    argSpecs := [.base "uint64", .txnT "pay", .base "byte"],
    returns := some (.base "uint64") }

/-- A zero-argument void method named `f`. -/
def hNoArg : ABIHandler := { hid := 2, name := "f", argSpecs := [], returns := none }

/-- A router state with one registered method `g()void` whose selector is
`[0]` (as produced by the constant hash used in the witnesses). -/
def stColl : RouterState :=
  { name := "r",
    method_sig_to_selector := [("g()void", [0])],
    method_selector_to_sig := [([0], "g()void")] }

/-- A transaction state sitting at group index 5. -/
def stG : TxnState := { applicationId := 7, groupIndex := 5, numAppArgs := 0 }

theorem enumFrom_length {α : Type} (i : Nat) (l : List α) :
    (enumFrom i l).length = l.length := by
  induction l generalizing i with
  | nil => rfl
  | cons a as ih => simp [enumFrom, ih]

theorem enumFrom_get? {α : Type} (i : Nat) (l : List α) (j : Nat) :
    (enumFrom i l).get? j = (l.get? j).map (fun a => (i + j, a)) := by
  induction l generalizing i j with
  | nil => simp [enumFrom]
  | cons a as ih =>
    cases j with
    | zero => simp [enumFrom]
    | succ j' =>
      simp only [enumFrom, List.get?_cons_succ, ih (i + 1) j']
      have hadd : i + 1 + j' = i + (j' + 1) := by omega
      rw [hadd]

theorem enumFrom_map_snd {α : Type} (i : Nat) (l : List α) :
    (enumFrom i l).map Prod.snd = l := by
  induction l generalizing i with
  | nil => rfl
  | cons a as ih => simp [enumFrom, ih]

theorem fst_le_of_mem_enumFrom {α : Type} {i : Nat} {l : List α} {p : Nat × α}
    (hp : p ∈ enumFrom i l) : i ≤ p.1 := by
  induction l generalizing i with
  | nil => cases hp
  | cons a as ih =>
    cases hp with
    | head => exact Nat.le_refl _
    | tail _ hp => exact Nat.le_of_lt (Nat.lt_of_succ_le (ih hp))

theorem map_fst_enumFrom_nodup {α : Type} (i : Nat) (l : List α) :
    ((enumFrom i l).map (fun p => ArgRef.orig p.1)).Nodup := by
  induction l generalizing i with
  | nil => exact List.nodup_nil
  | cons a as ih =>
    simp only [enumFrom, List.map_cons, List.nodup_cons]
    refine ⟨?_, ih (i + 1)⟩
    intro hmem
    obtain ⟨p, hp, he⟩ := List.mem_map.mp hmem
    have h1 : i + 1 ≤ p.1 := fst_le_of_mem_enumFrom hp
    have h2 : p.1 = i := by
      have := he
      simp only [ArgRef.orig.injEq] at this
      exact this
    omega

theorem map_ref_enumFrom {α β : Type} (i : Nat) (l : List (α × β)) :
    (enumFrom i l).map (fun p => p.2.1) = l.map (fun p => p.1) := by
  induction l generalizing i with
  | nil => rfl
  | cons a as ih => simp [enumFrom, ih]

theorem snd_mem_of_mem_enumFrom {α : Type} {i : Nat} {l : List α} {p : Nat × α}
    (hp : p ∈ enumFrom i l) : p.2 ∈ l := by
  have : p.2 ∈ (enumFrom i l).map Prod.snd := List.mem_map.mpr ⟨p, hp, rfl⟩
  rwa [enumFrom_map_snd] at this

theorem arg_vals_refs_nodup (h : ABIHandler) :
    ((arg_vals h).map (fun p => p.1)).Nodup := by
  have he : (arg_vals h).map (fun p => p.1)
      = (enumFrom 0 h.argSpecs).map (fun p => ArgRef.orig p.1) := by
    simp [arg_vals, List.map_map]
  rw [he]
  exact map_fst_enumFrom_nodup 0 h.argSpecs

theorem app_arg_vals_refs_nodup (h : ABIHandler) :
    ((app_arg_vals h).map (fun p => p.1)).Nodup :=
  List.Nodup.sublist (List.Sublist.map _ (List.filter_sublist _)) (arg_vals_refs_nodup h)

theorem txn_arg_vals_refs_nodup (h : ABIHandler) :
    ((txn_arg_vals h).map (fun p => p.1)).Nodup :=
  List.Nodup.sublist (List.Sublist.map _ (List.filter_sublist _)) (arg_vals_refs_nodup h)

theorem direct_txn_refs_disjoint (h : ABIHandler) :
    ∀ p ∈ app_arg_vals h, ∀ q ∈ txn_arg_vals h, p.1 ≠ q.1 := by
  intro p hp q hq he
  have hp' := List.mem_filter.mp hp
  have hq' := List.mem_filter.mp hq
  have hpq : p = q :=
    List.inj_on_of_nodup_map (arg_vals_refs_nodup h) hp'.1 hq'.1 he
  rw [hpq] at hp'
  have h1 := hp'.2
  have h2 := hq'.2
  rw [h2] at h1
  cases h1

theorem mem_arg_vals_ref (h : ABIHandler) :
    ∀ q ∈ arg_vals h, ∃ j, q.1 = ArgRef.orig j := by
  intro q hq
  obtain ⟨p, _, he⟩ := List.mem_map.mp hq
  exact ⟨p.1, by rw [← he]⟩

theorem tuplify_false_of_le (h : ABIHandler)
    (hd : (app_arg_vals h).length ≤ METHOD_ARG_NUM_CUTOFF) : tuplify h = false := by
  simp only [tuplify, decide_eq_false_iff_not, gt_iff_lt, not_lt]
  exact hd

theorem execInstrs_append {V : Type} (C : Codec V) (st : TxnState)
    (slots : Nat → List Nat) (l1 l2 : List Expr) (env : Env V) :
    execInstrs C st slots (l1 ++ l2) env
      = (execInstrs C st slots l1 env).bind (execInstrs C st slots l2) := by
  induction l1 generalizing env with
  | nil => simp [execInstrs]
  | cons e l ih =>
    simp only [List.cons_append, execInstrs]
    cases execInstr C st slots env e with
    | none => rfl
    | some env' => simpa using ih env'

theorem updEnv_same {V : Type} (env : Env V) (r : ArgRef) (v : V) :
    updEnv env r v r = some v := by
  simp [updEnv]

theorem updEnv_other {V : Type} (env : Env V) (r r' : ArgRef) (v : V)
    (hne : r' ≠ r) : updEnv env r v r' = env r' := by
  simp [updEnv, hne]

theorem exec_decode_list {V : Type} (C : Codec V) (st : TxnState)
    (slots : Nat → List Nat) :
    ∀ (q : List (Nat × (ArgRef × TypeSpec))) (env0 : Env V),
    (q.map (fun p => p.2.1)).Nodup →
    ∃ envF,
      execInstrs C st slots
        (q.map (fun p => Expr.decode p.2.1 p.2.2 (.txnApplicationArg (p.1 + 1)))) env0
        = some envF
      ∧ (∀ p ∈ q, envF p.2.1 = some (C.dec p.2.2 (slots (p.1 + 1))))
      ∧ (∀ r, (∀ p ∈ q, p.2.1 ≠ r) → envF r = env0 r) := by
  intro q
  induction q with
  | nil => exact fun env0 _ => ⟨env0, rfl, by simp, fun r _ => rfl⟩
  | cons a as ih =>
    intro env0 hnd
    simp only [List.map_cons, List.nodup_cons] at hnd
    obtain ⟨envF, h1, h2, h3⟩ :=
      ih (updEnv env0 a.2.1 (C.dec a.2.2 (slots (a.1 + 1)))) hnd.2
    refine ⟨envF, ?_, ?_, ?_⟩
    · simpa [execInstrs, execInstr] using h1
    · intro p hp
      cases hp with
      | head =>
        have hnotin : ∀ p' ∈ as, p'.2.1 ≠ a.2.1 := by
          intro p' hp' he
          exact hnd.1 (List.mem_map.mpr ⟨p', hp', he⟩)
        rw [h3 a.2.1 hnotin]
        exact updEnv_same _ _ _
      | tail _ hp => exact h2 p hp
    · intro r hr
      rw [h3 r (fun p hp => hr p (List.mem_cons_of_mem _ hp))]
      exact updEnv_other _ _ _ _ (fun he => hr a (List.mem_cons_self _ _) he.symm)

theorem exec_txnset_list {V : Type} (C : Codec V) (st : TxnState)
    (slots : Nat → List Nat) (k : Nat) :
    ∀ (q : List (Nat × (ArgRef × TypeSpec))) (env0 : Env V),
    (q.map (fun p => p.2.1)).Nodup →
    (∀ p ∈ q, k - p.1 ≤ st.groupIndex) →
    ∃ envF,
      execInstrs C st slots
        (q.map (fun p => Expr.txnSet p.2.1 (.subE .txnGroupIndex (.intLit (k - p.1)))))
        env0 = some envF
      ∧ (∀ p ∈ q, envF p.2.1 = some (C.txnAt (st.groupIndex - (k - p.1))))
      ∧ (∀ r, (∀ p ∈ q, p.2.1 ≠ r) → envF r = env0 r) := by
  intro q
  induction q with
  | nil => exact fun env0 _ _ => ⟨env0, rfl, by simp, fun r _ => rfl⟩
  | cons a as ih =>
    intro env0 hnd hle
    simp only [List.map_cons, List.nodup_cons] at hnd
    obtain ⟨envF, h1, h2, h3⟩ :=
      ih (updEnv env0 a.2.1 (C.txnAt (st.groupIndex - (k - a.1)))) hnd.2
        (fun p hp => hle p (List.mem_cons_of_mem _ hp))
    refine ⟨envF, ?_, ?_, ?_⟩
    · have hstep : execInstr C st slots env0
          (Expr.txnSet a.2.1 (.subE .txnGroupIndex (.intLit (k - a.1))))
          = some (updEnv env0 a.2.1 (C.txnAt (st.groupIndex - (k - a.1)))) := by
        have hk : k - a.1 ≤ st.groupIndex := hle a (List.mem_cons_self _ _)
        simp [execInstr, evalNum, hk]
      simp only [List.map_cons, execInstrs, hstep, Option.bind_some]
      exact h1
    · intro p hp
      cases hp with
      | head =>
        have hnotin : ∀ p' ∈ as, p'.2.1 ≠ a.2.1 := by
          intro p' hp' he
          exact hnd.1 (List.mem_map.mpr ⟨p', hp', he⟩)
        rw [h3 a.2.1 hnotin]
        exact updEnv_same _ _ _
      | tail _ hp => exact h2 p hp
    · intro r hr
      rw [h3 r (fun p hp => hr p (List.mem_cons_of_mem _ hp))]
      exact updEnv_other _ _ _ _ (fun he => hr a (List.mem_cons_self _ _) he.symm)

/-- Claim C5: `approval_cond()` iterates exactly the five
approval-relevant completion kinds (ClearState excluded), returns
constant-false when all five are `Never`, constant-true when all five are
`All`, and otherwise the disjunction over kinds with `CallConfig ≠ Never`
of `(on_completion == kind) AND condition_under_config(kind)`, a
constant-true condition reduced to the equality test alone and a
constant-false kind omitted entirely (this characterization is the
definition `approval_cond_spec`, written from the specification text);
and `clear_state_cond()` equals the ClearState field's
`condition_under_config()` with no disjunction. -/
theorem claim_C5 (mc : MethodConfig) :
    mc.approval_cond = approval_cond_spec mc
    ∧ mc.clear_state_cond = mc.clear_state.condition_under_config := by
  obtain ⟨a, b, c, d, e, f⟩ := mc
  refine ⟨?_, rfl⟩
  cases a <;> cases b <;> cases c <;> cases e <;> cases f <;> rfl

/-- Claim C6: `condition_under_config()` maps `Never` to constant-false,
`All` to constant-true, `Call` to the predicate "application id != 0" and
`Create` to "application id == 0"; over every transaction state exactly
one of the `Call`/`Create` predicates evaluates true (mutual exclusion
and joint exhaustion); a raw value outside the four enumerants lands in
the internal-invariant failure arm (`TealInternalError`, not a
user-facing `TealInputError`), while every enumerant value is handled. -/
theorem claim_C6 :
    CallConfig.NEVER.condition_under_config = CondVal.c0
    ∧ CallConfig.ALL.condition_under_config = CondVal.c1
    ∧ CallConfig.CALL.condition_under_config
        = CondVal.expr (.neE .txnApplicationId (.intLit 0))
    ∧ CallConfig.CREATE.condition_under_config
        = CondVal.expr (.eqE .txnApplicationId (.intLit 0))
    ∧ (∀ st : TxnState,
        (evalNum st (.neE .txnApplicationId (.intLit 0)) = some 1
            ∧ evalNum st (.eqE .txnApplicationId (.intLit 0)) = some 0)
        ∨ (evalNum st (.neE .txnApplicationId (.intLit 0)) = some 0
            ∧ evalNum st (.eqE .txnApplicationId (.intLit 0)) = some 1))
    ∧ (∀ n : Nat, 4 ≤ n →
        condition_under_config_raw n = .error (.internal "unexpected CallConfig"))
    ∧ (∀ cc : CallConfig,
        condition_under_config_raw cc.flag = .ok cc.condition_under_config) := by
  refine ⟨rfl, rfl, rfl, rfl, ?_, ?_, ?_⟩
  · intro st
    by_cases hz : st.applicationId = 0
    · right
      constructor <;> simp [evalNum, hz]
    · left
      constructor <;> simp [evalNum, hz]
  · intro n hn
    have h0 : n ≠ 0 := by omega
    have h1 : n ≠ 1 := by omega
    have h2 : n ≠ 2 := by omega
    have h3 : n ≠ 3 := by omega
    simp [condition_under_config_raw, CallConfig.ofFlag, h0, h1, h2, h3]
  · intro cc
    cases cc <;> rfl

/-- Witness for claim C6 at the concrete out-of-range value 4. -/
theorem claim_C6_witness :
    4 ≤ 4
    ∧ condition_under_config_raw 4 = .error (.internal "unexpected CallConfig") :=
  ⟨Nat.le_refl 4, claim_C6.2.2.2.2.2.1 4 (Nat.le_refl 4)⟩

/-- Claim C9: constructing an `OnCompleteAction` succeeds exactly when
the presence of a handler matches the permission (`handler present iff
call_config != Never`), and every successfully constructed action
satisfies that invariant. -/
theorem claim_C9 (a : Option Handler) (cc : CallConfig) :
    ((∃ oca, OnCompleteAction.make a cc = .ok oca)
        ↔ a.isSome = (cc ≠ CallConfig.NEVER : Bool))
    ∧ (∀ oca, OnCompleteAction.make a cc = .ok oca →
        oca.action.isSome = (oca.call_config ≠ CallConfig.NEVER : Bool)) := by
  cases a <;> cases cc <;> simp [OnCompleteAction.make]

/-- Witness for claim C9 at `Approve()` under `CallConfig.ALL`. -/
theorem claim_C9_witness :
    OnCompleteAction.make (some bareApprove) CallConfig.ALL
        = .ok { action := some bareApprove, call_config := CallConfig.ALL }
    ∧ ({ action := some bareApprove, call_config := CallConfig.ALL }
          : OnCompleteAction).action.isSome
        = (({ action := some bareApprove, call_config := CallConfig.ALL }
          : OnCompleteAction).call_config ≠ CallConfig.NEVER : Bool) :=
  ⟨rfl, (claim_C9 (some bareApprove) CallConfig.ALL).2 _ rfl⟩

/-- Claim C1, evaluated at the failing input `hOverflowTxn` (one
reference argument followed by 16 direct arguments, so the 16 direct
arguments tuplify while one reference argument is present).  The claim
says the trailing direct arguments packed into the synthesized tuple —
here the direct arguments at declared positions 15 and 16 (the
synthesized tuple has exactly those 2 member specs) — are destructured
back into those same argument values.  The code instead slices
`arg_vals[METHOD_ARG_NUM_CUTOFF - 1:]`, covering declared positions
14, 15 and 16: it stores tuple element 0 into declared argument 14
(which is not packed — it is independently decoded from its own slot 14),
element 1 into argument 15, and element 2 — one past the end of the
2-element tuple, an index error at construction time in Python — into
the transaction-typed argument 16. -/
theorem claim_C1_failing_eval :
    tuplify hOverflowTxn = true
    ∧ last_arg_specs_grouped hOverflowTxn = [.base "uint64", .base "uint64"]
    ∧ ((app_arg_vals hOverflowTxn).drop (METHOD_ARG_NUM_CUTOFF - 1)).map
          (fun p => p.1)
        = [ArgRef.orig 15, ArgRef.orig 16]
    ∧ de_tuple_instructions hOverflowTxn
        = [.storeTupleInto .packed 0 (.orig 14),
           .storeTupleInto .packed 1 (.orig 15),
           .storeTupleInto .packed 2 (.orig 16)]
    ∧ (decode_instructions hOverflowTxn).get? 13
        = some (.decode (.orig 14) (.base "uint64") (.txnApplicationArg 14))
    ∧ (last_arg_specs_grouped hOverflowTxn).length = 2
    ∧ (de_tuple_instructions hOverflowTxn).length = 3 :=
  ⟨rfl, rfl, rfl, rfl, rfl, rfl, rfl⟩

theorem app_arg_vals_final_refs_nodup (h : ABIHandler) :
    ((app_arg_vals_final h).map (fun p => p.1)).Nodup := by
  by_cases htup : tuplify h = true
  · simp only [app_arg_vals_final, htup, if_true, List.map_append]
    rw [List.nodup_append]
    refine ⟨?_, by simp, ?_⟩
    · exact List.Nodup.sublist
        (List.Sublist.map _ (List.take_sublist _ _)) (app_arg_vals_refs_nodup h)
    · intro x hx hy
      obtain ⟨p, hp, hpe⟩ := List.mem_map.mp hx
      have hpa : p ∈ app_arg_vals h := (List.take_sublist _ _).subset hp
      have hparg : p ∈ arg_vals h := (List.mem_filter.mp hpa).1
      obtain ⟨j, hj⟩ := mem_arg_vals_ref h p hparg
      simp only [List.map_cons, List.map_nil, List.mem_singleton] at hy
      rw [← hpe, hj] at hy
      cases hy
  · have htup' : tuplify h = false := by
      cases hb : tuplify h
      · rfl
      · exact absurd hb htup
    simp only [app_arg_vals_final, htup']
    simpa using app_arg_vals_refs_nodup h

/-- Claim C2: for a method with `d` direct arguments, `d` at most the
cutoff, method-mode marshaling emits exactly `d` wire-decode
instructions, one per call-argument slot `1..d` (slot 0 holds the
selector): the `i`-th direct argument in declared order (position `i` in
the direct-argument sequence; reference arguments occupy no slot) is
decoded from slot `i + 1` at its own declared type, so that executing the
decode instructions against any wire assigns to each direct argument the
external codec's decode of its own slot — the value originally encoded
there. -/
theorem claim_C2 (h : ABIHandler)
    (hd : (app_arg_vals h).length ≤ METHOD_ARG_NUM_CUTOFF) :
    (decode_instructions h).length = (app_arg_vals h).length
    ∧ (all_decode_instructions h).filter isWireDecode = decode_instructions h
    ∧ (∀ i r s, (app_arg_vals h).get? i = some (r, s) →
        (decode_instructions h).get? i
          = some (.decode r s (.txnApplicationArg (i + 1))))
    ∧ (∀ (V : Type) (C : Codec V) (st : TxnState) (slots : Nat → List Nat)
        (env0 : Env V),
        ∃ envF, execInstrs C st slots (decode_instructions h) env0 = some envF
          ∧ ∀ i r s, (app_arg_vals h).get? i = some (r, s) →
              envF r = some (C.dec s (slots (i + 1)))) := by
  have htup : tuplify h = false := tuplify_false_of_le h hd
  have hdi : decode_instructions h
      = (enumFrom 0 (app_arg_vals h)).map
          (fun p => Expr.decode p.2.1 p.2.2 (.txnApplicationArg (p.1 + 1))) := by
    simp [decode_instructions, app_arg_vals_final, htup]
  refine ⟨?_, ?_, ?_, ?_⟩
  · rw [hdi, List.length_map, enumFrom_length]
  · have hdec : (decode_instructions h).filter isWireDecode = decode_instructions h := by
      rw [List.filter_eq_self]
      intro e he
      rw [hdi] at he
      obtain ⟨p, _, hpe⟩ := List.mem_map.mp he
      rw [← hpe]
      rfl
    have htxn : (txn_decode_instructions h).filter isWireDecode = [] := by
      rw [List.filter_eq_nil_iff]
      intro e he
      obtain ⟨p, _, hpe⟩ := List.mem_map.mp he
      rw [← hpe]
      simp [isWireDecode]
    have hdet : de_tuple_instructions h = [] := by
      simp [de_tuple_instructions, htup]
    unfold all_decode_instructions
    rw [hdet, List.append_nil, List.filter_append, hdec]
    by_cases hk : (txn_arg_vals h).length > 0
    · rw [if_pos hk, htxn, List.append_nil]
    · rw [if_neg hk]
      simp
  · intro i r s hget
    have hen : (enumFrom 0 (app_arg_vals h)).get? i = some (i, (r, s)) := by
      rw [enumFrom_get?, hget]
      simp
    rw [hdi, List.get?_map, hen]
    rfl
  · intro V C st slots env0
    have hnd : ((enumFrom 0 (app_arg_vals h)).map (fun p => p.2.1)).Nodup := by
      rw [map_ref_enumFrom]
      exact app_arg_vals_refs_nodup h
    obtain ⟨envF, h1, h2, _⟩ :=
      exec_decode_list C st slots (enumFrom 0 (app_arg_vals h)) env0 hnd
    refine ⟨envF, by rw [hdi]; exact h1, ?_⟩
    intro i r s hget
    have hmem : (i, (r, s)) ∈ enumFrom 0 (app_arg_vals h) := by
      apply List.get?_mem
      rw [enumFrom_get?, hget]
      simp
    simpa using h2 (i, (r, s)) hmem

/-- Witness for claim C2 at the three-parameter method `hMix`
(two direct arguments, one reference argument). -/
theorem claim_C2_witness :
    (app_arg_vals hMix).length ≤ METHOD_ARG_NUM_CUTOFF
    ∧ (decode_instructions hMix).length = (app_arg_vals hMix).length :=
  ⟨by decide, (claim_C2 hMix (by decide)).1⟩

/-- Claim C3: reference (transaction-typed) arguments are never
wire-decoded — no `decode` instruction of method-mode marshaling targets
a reference argument — and the `i`-th reference argument (0-indexed, in
declared order) among `k` total reference arguments is set to the
transaction at group index `Txn.group_index() - (k - i)`; executing the
decode and transaction-resolution instructions (for any group position at
least `k`, i.e. across all group sizes admitting `k` predecessors)
resolves it to the transaction at that group-relative offset. -/
theorem claim_C3 (h : ABIHandler) (st : TxnState)
    (hg : (txn_arg_vals h).length ≤ st.groupIndex) :
    (txn_decode_instructions h).length = (txn_arg_vals h).length
    ∧ (∀ i r s, (txn_arg_vals h).get? i = some (r, s) →
        (txn_decode_instructions h).get? i
          = some (.txnSet r (.subE .txnGroupIndex
              (.intLit ((txn_arg_vals h).length - i)))))
    ∧ (∀ t sp src, Expr.decode t sp src ∈ all_decode_instructions h →
        ∀ q ∈ txn_arg_vals h, t ≠ q.1)
    ∧ (∀ (V : Type) (C : Codec V) (slots : Nat → List Nat) (env0 : Env V),
        ∃ envF,
          execInstrs C st slots
            (decode_instructions h ++ txn_decode_instructions h) env0 = some envF
          ∧ ∀ i r s, (txn_arg_vals h).get? i = some (r, s) →
              envF r = some (C.txnAt (st.groupIndex - ((txn_arg_vals h).length - i)))) := by
  refine ⟨?_, ?_, ?_, ?_⟩
  · rw [txn_decode_instructions, List.length_map, enumFrom_length]
  · intro i r s hget
    have hen : (enumFrom 0 (txn_arg_vals h)).get? i = some (i, (r, s)) := by
      rw [enumFrom_get?, hget]
      simp
    rw [txn_decode_instructions, List.get?_map, hen]
    rfl
  · intro t sp src hmem q hq he
    have hqref : ∃ j, q.1 = ArgRef.orig j :=
      mem_arg_vals_ref h q (List.mem_filter.mp hq).1
    unfold all_decode_instructions at hmem
    rcases List.mem_append.mp hmem with hm | hm
    · rcases List.mem_append.mp hm with hm' | hm'
      · -- a genuine wire-decode: its target is a direct instance or the
        -- synthesized tuple, never a reference instance
        obtain ⟨p, hp, hpe⟩ := List.mem_map.mp hm'
        have hpt : p.2.1 = t := by
          injection hpe with h1 h2 h3
        have hpa : p.2 ∈ app_arg_vals_final h := snd_mem_of_mem_enumFrom hp
        by_cases htup : tuplify h = true
        · rw [app_arg_vals_final, if_pos htup] at hpa
          rcases List.mem_append.mp hpa with hpa' | hpa'
          · have : p.2 ∈ app_arg_vals h := (List.take_sublist _ _).subset hpa'
            exact direct_txn_refs_disjoint h p.2 this q hq (by rw [hpt, he])
          · obtain ⟨j, hj⟩ := hqref
            rw [List.mem_singleton] at hpa'
            have : p.2.1 = ArgRef.packed := by rw [hpa']
            rw [hpt, he, hj] at this
            cases this
        · have htup' : tuplify h = false := by
            cases hb : tuplify h
            · rfl
            · exact absurd hb htup
          rw [app_arg_vals_final, if_neg (by rw [htup']; exact Bool.false_ne_true)] at hpa
          exact direct_txn_refs_disjoint h p.2 hpa q hq (by rw [hpt, he])
      · -- transaction-resolution instructions are not decodes
        by_cases hk : (txn_arg_vals h).length > 0
        · rw [if_pos hk] at hm'
          obtain ⟨p, _, hpe⟩ := List.mem_map.mp hm'
          simp at hpe
        · rw [if_neg hk] at hm'
          cases hm'
    · -- tuple-destructuring instructions are not decodes
      rw [de_tuple_instructions] at hm
      by_cases htup : tuplify h = true
      · rw [if_pos htup] at hm
        obtain ⟨p, _, hpe⟩ := List.mem_map.mp hm
        simp at hpe
      · rw [if_neg htup] at hm
        cases hm
  · intro V C slots env0
    have hnd1 : ((enumFrom 0 (app_arg_vals_final h)).map (fun p => p.2.1)).Nodup := by
      rw [map_ref_enumFrom]
      exact app_arg_vals_final_refs_nodup h
    obtain ⟨env1, h1, _, _⟩ :=
      exec_decode_list C st slots (enumFrom 0 (app_arg_vals_final h)) env0 hnd1
    have hnd2 : ((enumFrom 0 (txn_arg_vals h)).map (fun p => p.2.1)).Nodup := by
      rw [map_ref_enumFrom]
      exact txn_arg_vals_refs_nodup h
    have hle : ∀ p ∈ enumFrom 0 (txn_arg_vals h),
        (txn_arg_vals h).length - p.1 ≤ st.groupIndex :=
      fun p _ => Nat.le_trans (Nat.sub_le _ _) hg
    obtain ⟨envF, h2, h3, _⟩ :=
      exec_txnset_list C st slots ((txn_arg_vals h).length)
        (enumFrom 0 (txn_arg_vals h)) env1 hnd2 hle
    refine ⟨envF, ?_, ?_⟩
    · rw [execInstrs_append]
      rw [decode_instructions] at *
      rw [h1]
      rw [txn_decode_instructions]
      exact h2
    · intro i r s hget
      have hmem : (i, (r, s)) ∈ enumFrom 0 (txn_arg_vals h) := by
        apply List.get?_mem
        rw [enumFrom_get?, hget]
        simp
      simpa using h3 (i, (r, s)) hmem

/-- Witness for claim C3 at the three-parameter method `hMix` and a
transaction sitting at group index 5. -/
theorem claim_C3_witness :
    (txn_arg_vals hMix).length ≤ stG.groupIndex
    ∧ (txn_decode_instructions hMix).length = (txn_arg_vals hMix).length :=
  ⟨by decide, (claim_C3 hMix stG (by decide)).1⟩

theorem add_method_to_ast_append (b : ASTBuilder) (sig : String) (cond : CondVal)
    (hd : Handler) :
    ∃ t, (b.add_method_to_ast sig cond hd).1.conditions_n_branches
      = b.conditions_n_branches ++ t := by
  cases cond with
  | c0 => exact ⟨[], by simp [ASTBuilder.add_method_to_ast]⟩
  | c1 =>
    cases hw : wrap_handler true hd with
    | ok w =>
      refine ⟨[⟨.eqE (.txnApplicationArg 0) (.methodSignature sig), w⟩], ?_⟩
      simp [ASTBuilder.add_method_to_ast, hw]
    | error e => exact ⟨[], by simp [ASTBuilder.add_method_to_ast, hw]⟩
  | expr c =>
    cases hw : wrap_handler true hd with
    | ok w =>
      refine ⟨[⟨.eqE (.txnApplicationArg 0) (.methodSignature sig),
        .seqE [.assertE c, w]⟩], ?_⟩
      simp [ASTBuilder.add_method_to_ast, hw]
    | error e => exact ⟨[], by simp [ASTBuilder.add_method_to_ast, hw]⟩

theorem addToTrees_registry (st : RouterState) (sig : String) (ca cc : CondVal)
    (hd : Handler) :
    (addToTrees st sig ca cc hd).1.method_sig_to_selector = st.method_sig_to_selector
    ∧ (addToTrees st sig ca cc hd).1.method_selector_to_sig = st.method_selector_to_sig := by
  unfold addToTrees
  rcases ha : st.approval_ast.add_method_to_ast sig ca hd with ⟨a', oe⟩
  cases oe <;> exact ⟨rfl, rfl⟩

theorem addToTrees_append (st : RouterState) (sig : String) (ca cc : CondVal)
    (hd : Handler) :
    ∃ t1 t2,
      (addToTrees st sig ca cc hd).1.approval_ast.conditions_n_branches
        = st.approval_ast.conditions_n_branches ++ t1
      ∧ (addToTrees st sig ca cc hd).1.clear_state_ast.conditions_n_branches
        = st.clear_state_ast.conditions_n_branches ++ t2 := by
  obtain ⟨t2, ht2⟩ := add_method_to_ast_append st.clear_state_ast sig cc hd
  unfold addToTrees
  rcases ha : st.approval_ast.add_method_to_ast sig ca hd with ⟨a', oe⟩
  obtain ⟨t1, ht1⟩ := add_method_to_ast_append st.approval_ast sig ca hd
  rw [ha] at ht1
  cases oe with
  | some e => exact ⟨t1, [], ht1, by simp⟩
  | none => exact ⟨t1, t2, ht1, ht2⟩

theorem addToTrees_clear_c0 (st : RouterState) (sig : String) (ca : CondVal)
    (hd : Handler) :
    (addToTrees st sig ca .c0 hd).1.clear_state_ast = st.clear_state_ast := by
  unfold addToTrees
  rcases ha : st.approval_ast.add_method_to_ast sig ca hd with ⟨a', oe⟩
  cases oe <;> rfl

theorem add_method_handler_append (hashF : String → List Nat) (st : RouterState)
    (hd : Handler) (oname : Option String) (mc : MethodConfig) :
    ∃ t1 t2,
      (Router.add_method_handler hashF st hd oname mc).1.approval_ast.conditions_n_branches
        = st.approval_ast.conditions_n_branches ++ t1
      ∧ (Router.add_method_handler hashF st hd oname mc).1.clear_state_ast.conditions_n_branches
        = st.clear_state_ast.conditions_n_branches ++ t2 := by
  cases hd with
  | exprH e t r => exact ⟨[], [], by simp [Router.add_method_handler], by simp [Router.add_method_handler]⟩
  | subH i t a => exact ⟨[], [], by simp [Router.add_method_handler], by simp [Router.add_method_handler]⟩
  | abiH h =>
    simp only [Router.add_method_handler]
    split
    · exact ⟨[], [], by simp, by simp⟩
    · split
      · exact ⟨[], [], by simp, by simp⟩
      · split
        · exact ⟨[], [], by simp, by simp⟩
        · split
          · exact addToTrees_append _ _ _ _ _
          · exact addToTrees_append _ _ _ _ _

theorem regStep_append (hashF : String → List Nat) (st : RouterState)
    (r : Registration) :
    ∃ t1 t2,
      (regStep hashF st r).approval_ast.conditions_n_branches
        = st.approval_ast.conditions_n_branches ++ t1
      ∧ (regStep hashF st r).clear_state_ast.conditions_n_branches
        = st.clear_state_ast.conditions_n_branches ++ t2 :=
  add_method_handler_append hashF st r.handler r.overriding_name r.method_config

theorem foldl_regStep_append (hashF : String → List Nat) (regs : List Registration) :
    ∀ st : RouterState, ∃ t1 t2,
      (regs.foldl (regStep hashF) st).approval_ast.conditions_n_branches
        = st.approval_ast.conditions_n_branches ++ t1
      ∧ (regs.foldl (regStep hashF) st).clear_state_ast.conditions_n_branches
        = st.clear_state_ast.conditions_n_branches ++ t2 := by
  induction regs with
  | nil => exact fun st => ⟨[], [], by simp, by simp⟩
  | cons r rs ih =>
    intro st
    obtain ⟨u1, u2, hu1, hu2⟩ := regStep_append hashF st r
    obtain ⟨t1, t2, ht1, ht2⟩ := ih (regStep hashF st r)
    refine ⟨u1 ++ t1, u2 ++ t2, ?_, ?_⟩
    · rw [List.foldl_cons, ht1, hu1, List.append_assoc]
    · rw [List.foldl_cons, ht2, hu2, List.append_assoc]

theorem arc4_false_of_clear_never (mc : MethodConfig)
    (hcs : mc.clear_state = CallConfig.NEVER) : mc.is_arc4_compliant = false := by
  unfold MethodConfig.is_arc4_compliant
  rw [decide_eq_false_iff_not]
  intro he
  rw [he] at hcs
  cases hcs

theorem clear_unchanged (hashF : String → List Nat) (st : RouterState)
    (hd : Handler) (oname : Option String) (mc : MethodConfig)
    (hcs : mc.clear_state = CallConfig.NEVER) :
    (Router.add_method_handler hashF st hd oname mc).1.clear_state_ast
      = st.clear_state_ast := by
  cases hd with
  | exprH e t r => rfl
  | subH i t a => rfl
  | abiH h =>
    have harc : mc.is_arc4_compliant = false := arc4_false_of_clear_never mc hcs
    have hcc : mc.clear_state_cond = CondVal.c0 := by
      unfold MethodConfig.clear_state_cond
      rw [hcs]
      rfl
    simp only [Router.add_method_handler]
    split
    · rfl
    · split
      · rfl
      · split
        · rfl
        · split
          · rename_i harc'
            rw [harc] at harc'
            cases harc'
          · rw [hcc]
            exact addToTrees_clear_c0 _ _ _ _

theorem add_success_registry (hashF : String → List Nat) (st : RouterState)
    (h : ABIHandler) (oname : Option String) (mc : MethodConfig) :
    (Router.add_method_handler hashF st (.abiH h) oname mc).2 = none →
    (Router.add_method_handler hashF st (.abiH h) oname mc).1.method_sig_to_selector
      = st.method_sig_to_selector
        ++ [(h.method_signature oname, (hashF (h.method_signature oname)).take 4)]
    ∧ (Router.add_method_handler hashF st (.abiH h) oname mc).1.method_selector_to_sig
      = st.method_selector_to_sig
        ++ [((hashF (h.method_signature oname)).take 4, h.method_signature oname)] := by
  simp only [Router.add_method_handler]
  split
  · intro hn; simp at hn
  · split
    · intro hn; simp at hn
    · split
      · intro hn; simp at hn
      · intro _
        split
        · exact addToTrees_registry _ _ _ _ _
        · exact addToTrees_registry _ _ _ _ _

theorem build_program_error_of_clear_empty (st : RouterState)
    (hc : st.clear_state_ast.conditions_n_branches = []) :
    Router.build_program st
      = .error (.input "ABIRouter: Cannot build program with an empty AST") := by
  have hcp : st.clear_state_ast.program_construction
      = .error (.input "ABIRouter: Cannot build program with an empty AST") := by
    simp [ASTBuilder.program_construction, hc]
  cases ha : st.approval_ast.conditions_n_branches with
  | nil =>
    have hap : st.approval_ast.program_construction
        = .error (.input "ABIRouter: Cannot build program with an empty AST") := by
      simp [ASTBuilder.program_construction, ha]
    simp [Router.build_program, hap, Bind.bind, Except.bind]
  | cons x xs =>
    have hap : st.approval_ast.program_construction
        = .ok (.condE ((x :: xs).map (fun n => (n.condition, n.branch)))) := by
      simp [ASTBuilder.program_construction, ha]
    simp [Router.build_program, hap, hcp, Bind.bind, Except.bind]

theorem foldl_clear_empty (hashF : String → List Nat) (regs : List Registration) :
    ∀ st : RouterState, st.clear_state_ast.conditions_n_branches = [] →
    (∀ r ∈ regs, r.method_config.clear_state = CallConfig.NEVER) →
    (regs.foldl (regStep hashF) st).clear_state_ast.conditions_n_branches = [] := by
  induction regs with
  | nil => exact fun st hst _ => hst
  | cons r rs ih =>
    intro st hst hall
    have hstep : (regStep hashF st r).clear_state_ast = st.clear_state_ast :=
      clear_unchanged hashF st r.handler r.overriding_name r.method_config
        (hall r (List.mem_cons_self _ _))
    exact ih _ (by rw [hstep]; exact hst)
      (fun r' hr' => hall r' (List.mem_cons_of_mem _ hr'))

/-- Claim C4: `add_method_handler` rejects — raising before any registry
mutation, so the whole state is exactly the input state — when the
`MethodConfig` grants `Never` for every completion kind, when the
computed signature is already registered, or when the 4-byte selector
(the 4-element prefix of the external hash of the signature) collides
with a previously registered entry; and whenever the call raises nothing,
exactly the one new signature-selector pair is appended to both
directions of the registry. -/
theorem claim_C4 (hashF : String → List Nat) (st : RouterState) (h : ABIHandler)
    (oname : Option String) (mc : MethodConfig) :
    (mc.is_never = true →
      Router.add_method_handler hashF st (.abiH h) oname mc
        = (st, some (.input ("registered method " ++ h.method_signature oname
            ++ " is never executed"))))
    ∧ (mc.is_never = false →
        hasKey st.method_sig_to_selector (h.method_signature oname) = true →
        Router.add_method_handler hashF st (.abiH h) oname mc
          = (st, some (.input ("re-registering method " ++ h.method_signature oname
              ++ " detected"))))
    ∧ (mc.is_never = false →
        hasKey st.method_sig_to_selector (h.method_signature oname) = false →
        hasKey st.method_selector_to_sig ((hashF (h.method_signature oname)).take 4) = true →
        Router.add_method_handler hashF st (.abiH h) oname mc
          = (st, some (.input ("re-registering method " ++ h.method_signature oname
              ++ " has hash collision"))))
    ∧ ((Router.add_method_handler hashF st (.abiH h) oname mc).2 = none →
        (Router.add_method_handler hashF st (.abiH h) oname mc).1.method_sig_to_selector
          = st.method_sig_to_selector
            ++ [(h.method_signature oname, (hashF (h.method_signature oname)).take 4)]
        ∧ (Router.add_method_handler hashF st (.abiH h) oname mc).1.method_selector_to_sig
          = st.method_selector_to_sig
            ++ [((hashF (h.method_signature oname)).take 4, h.method_signature oname)]) := by
  refine ⟨?_, ?_, ?_, add_success_registry hashF st h oname mc⟩
  · intro hnev
    simp [Router.add_method_handler, hnev]
  · intro hnev hdup
    simp [Router.add_method_handler, hnev, hdup]
  · intro hnev hdup hsel
    simp [Router.add_method_handler, hnev, hdup, hsel]

/-- Witness for claim C4: a selector collision under the constant hash
`fun _ => [0]` against the pre-registered distinct signature `g()void`
leaves the registry (the whole state) unchanged and raises. -/
theorem claim_C4_witness :
    MethodConfig.is_never ({} : MethodConfig) = false
    ∧ hasKey stColl.method_sig_to_selector (hNoArg.method_signature none) = false
    ∧ hasKey stColl.method_selector_to_sig (([0] : List Nat).take 4) = true
    ∧ Router.add_method_handler (fun _ => [0]) stColl (.abiH hNoArg) none {}
        = (stColl, some (.input ("re-registering method " ++ hNoArg.method_signature none
            ++ " has hash collision"))) :=
  ⟨rfl, rfl, rfl, (claim_C4 (fun _ => [0]) stColl hNoArg none {}).2.2.1 rfl rfl rfl⟩

/-- Claim C7: a `Router` constructed with a non-empty `BareCallActions`
seeds the bare-call approval and clear-state constructions as the first
entries of the respective dispatch trees, each guarded by "zero call
arguments were supplied" (`Txn.application_args.length() == Int(0)`);
this bare entry precedes every entry any sequence of later
registrations appends, and each registration only ever appends at the
end of each tree (registration order is preserved). -/
theorem claim_C7 (hashF : String → List Nat) (name : String) (bc : BareCallActions)
    (apc csc : Expr) (regs : List Registration)
    (hne : bc.is_empty = false)
    (hap : bc.approval_construction = .ok (some apc))
    (hcs : bc.clear_state_construction = .ok (some csc)) :
    (Router.init name (some bc)).2 = none
    ∧ (Router.init name (some bc)).1.approval_ast.conditions_n_branches
        = [⟨.eqE .txnNumAppArgs (.intLit 0), apc⟩]
    ∧ (Router.init name (some bc)).1.clear_state_ast.conditions_n_branches
        = [⟨.eqE .txnNumAppArgs (.intLit 0), csc⟩]
    ∧ (∃ t1 t2,
        (regs.foldl (regStep hashF) (Router.init name (some bc)).1).approval_ast.conditions_n_branches
          = ⟨.eqE .txnNumAppArgs (.intLit 0), apc⟩ :: t1
        ∧ (regs.foldl (regStep hashF) (Router.init name (some bc)).1).clear_state_ast.conditions_n_branches
          = ⟨.eqE .txnNumAppArgs (.intLit 0), csc⟩ :: t2)
    ∧ (∀ (st : RouterState) (r : Registration), ∃ u1 u2,
        (regStep hashF st r).approval_ast.conditions_n_branches
          = st.approval_ast.conditions_n_branches ++ u1
        ∧ (regStep hashF st r).clear_state_ast.conditions_n_branches
          = st.clear_state_ast.conditions_n_branches ++ u2) := by
  have hA : (Router.init name (some bc)).1.approval_ast.conditions_n_branches
      = [⟨.eqE .txnNumAppArgs (.intLit 0), apc⟩] := by
    simp [Router.init, hne, hap, hcs]
  have hC : (Router.init name (some bc)).1.clear_state_ast.conditions_n_branches
      = [⟨.eqE .txnNumAppArgs (.intLit 0), csc⟩] := by
    simp [Router.init, hne, hap, hcs]
  have hN : (Router.init name (some bc)).2 = none := by
    simp [Router.init, hne, hap, hcs]
  refine ⟨hN, hA, hC, ?_, fun st r => regStep_append hashF st r⟩
  obtain ⟨t1, t2, ht1, ht2⟩ :=
    foldl_regStep_append hashF regs (Router.init name (some bc)).1
  exact ⟨t1, t2, by rw [ht1, hA]; rfl, by rw [ht2, hC]; rfl⟩

/-- Witness for claim C7: concrete bare-call actions with a NoOp action
and a ClearState action (both `Approve()` under `ALL`), an empty
registration sequence. -/
theorem claim_C7_witness :
    bcW.is_empty = false
    ∧ bcW.approval_construction
        = .ok (some (.condE [(.eqE .txnOnCompletion (.ocEnum .NoOp), .approve)]))
    ∧ bcW.clear_state_construction = .ok (some .approve)
    ∧ ∃ t1 t2,
        (([] : List Registration).foldl (regStep (fun _ => [0]))
            (Router.init "w" (some bcW)).1).approval_ast.conditions_n_branches
          = ⟨.eqE .txnNumAppArgs (.intLit 0),
              .condE [(.eqE .txnOnCompletion (.ocEnum .NoOp), .approve)]⟩ :: t1
        ∧ (([] : List Registration).foldl (regStep (fun _ => [0]))
            (Router.init "w" (some bcW)).1).clear_state_ast.conditions_n_branches
          = ⟨.eqE .txnNumAppArgs (.intLit 0), .approve⟩ :: t2 :=
  ⟨rfl, rfl, rfl,
    (claim_C7 (fun _ => [0]) "w" bcW
      (.condE [(.eqE .txnOnCompletion (.ocEnum .NoOp), .approve)]) .approve
      [] rfl rfl rfl).2.2.2.1⟩

/-- Claim C8: `program_construction()` fails with the empty-AST
construction error exactly when no dispatch entries were accumulated, and
otherwise composes all entries, in order, into one `Cond`; consequently a
router with only a bare NoOp handler builds an approval program whose
sole entry is guarded by "zero call arguments", while its clear-state
program build — and hence `build_program` — fails with the empty-AST
error. -/
theorem claim_C8 :
    (∀ b : ASTBuilder,
        (b.program_construction
            = .error (.input "ABIRouter: Cannot build program with an empty AST")
          ↔ b.conditions_n_branches = []))
    ∧ (∀ b : ASTBuilder, b.conditions_n_branches ≠ [] →
        b.program_construction
          = .ok (.condE (b.conditions_n_branches.map (fun n => (n.condition, n.branch)))))
    ∧ router0.approval_ast.program_construction
        = .ok (.condE [(.eqE .txnNumAppArgs (.intLit 0),
            .condE [(.eqE .txnOnCompletion (.ocEnum .NoOp), .approve)])])
    ∧ router0.clear_state_ast.program_construction
        = .error (.input "ABIRouter: Cannot build program with an empty AST")
    ∧ Router.build_program router0
        = .error (.input "ABIRouter: Cannot build program with an empty AST")
    ∧ (Router.init "demo" (some bc0)).2 = none := by
  refine ⟨?_, ?_, rfl, rfl, ?_, rfl⟩
  · intro b
    cases hl : b.conditions_n_branches with
    | nil => simp [ASTBuilder.program_construction, hl]
    | cons x xs => simp [ASTBuilder.program_construction, hl]
  · intro b hne
    cases hl : b.conditions_n_branches with
    | nil => exact absurd hl hne
    | cons x xs => simp [ASTBuilder.program_construction, hl]
  · exact build_program_error_of_clear_empty router0 rfl

/-- Witness for claim C8 at the non-empty approval tree of `router0`. -/
theorem claim_C8_witness :
    router0.approval_ast.conditions_n_branches ≠ []
    ∧ router0.approval_ast.program_construction
        = .ok (.condE (router0.approval_ast.conditions_n_branches.map
            (fun n => (n.condition, n.branch)))) :=
  ⟨List.cons_ne_nil _ _, claim_C8.2.1 router0.approval_ast (List.cons_ne_nil _ _)⟩

/-- Claim C10: a registration whose `MethodConfig` has
`clear_state = Never` (the default config included) appends nothing to
the clear-state dispatch tree, although the registration itself can
succeed and then records the signature in the registry; consequently a
router whose clear-state tree starts empty (e.g. constructed without
bare-call actions) and whose registrations all carry such configs keeps
an empty clear-state tree and `build_program` raises the empty-AST
error. -/
theorem claim_C10 (hashF : String → List Nat) (st : RouterState) (hd : Handler)
    (oname : Option String) (mc : MethodConfig) (name : String)
    (regs : List Registration) (st' : RouterState)
    (hcs : mc.clear_state = CallConfig.NEVER) :
    (Router.add_method_handler hashF st hd oname mc).1.clear_state_ast
        = st.clear_state_ast
    ∧ ({} : MethodConfig).clear_state = CallConfig.NEVER
    ∧ (∀ h2 : ABIHandler,
        (Router.add_method_handler hashF st (.abiH h2) oname mc).2 = none →
        (Router.add_method_handler hashF st (.abiH h2) oname mc).1.method_sig_to_selector
          = st.method_sig_to_selector
            ++ [(h2.method_signature oname, (hashF (h2.method_signature oname)).take 4)])
    ∧ (Router.init name none).1.clear_state_ast.conditions_n_branches = []
    ∧ (st'.clear_state_ast.conditions_n_branches = [] →
        (∀ r ∈ regs, r.method_config.clear_state = CallConfig.NEVER) →
        (regs.foldl (regStep hashF) st').clear_state_ast.conditions_n_branches = []
        ∧ Router.build_program (regs.foldl (regStep hashF) st')
            = .error (.input "ABIRouter: Cannot build program with an empty AST")) := by
  refine ⟨clear_unchanged hashF st hd oname mc hcs, rfl,
    fun h2 hn => (add_success_registry hashF st h2 oname mc hn).1, rfl, ?_⟩
  intro hempty hall
  have hfe := foldl_clear_empty hashF regs st' hempty hall
  exact ⟨hfe, build_program_error_of_clear_empty _ hfe⟩

/-- Witness for claim C10: one default-config registration of `f()void`
against a bare-less router leaves the clear-state tree empty and the
build raises the empty-AST error. -/
theorem claim_C10_witness :
    ({} : MethodConfig).clear_state = CallConfig.NEVER
    ∧ ([({ handler := Handler.abiH hNoArg } : Registration)].foldl
          (regStep (fun _ => [0]))
          (Router.init "r" none).1).clear_state_ast.conditions_n_branches = []
    ∧ Router.build_program
        ([({ handler := Handler.abiH hNoArg } : Registration)].foldl
          (regStep (fun _ => [0])) (Router.init "r" none).1)
        = .error (.input "ABIRouter: Cannot build program with an empty AST") := by
  have h5 := (claim_C10 (fun _ => [0]) (Router.init "r" none).1 (Handler.abiH hNoArg)
      none {} "r" [({ handler := Handler.abiH hNoArg } : Registration)]
      (Router.init "r" none).1 rfl).2.2.2.2 rfl
    (by
      intro r hr
      rw [List.mem_singleton] at hr
      rw [hr])
  exact ⟨rfl, h5.1, h5.2⟩

end PyTealRouter
